import Mathlib

/-!
Shallow embedding of the transactional order-fulfillment engine of
`src/orders/orders.service.ts` (NestJS/TypeORM service), together with the
data model it operates on.

Modelling conventions:
* Database tables (`products`, `orders`, `order_items`) are lists of rows;
  primary-key lookup is first-match search and a save is an upsert that
  replaces the first row with the same id (or appends a fresh row).
* A transaction is modelled by threading the in-transaction database state
  through the body; the engine wrapper commits the final state on success
  and restores the pre-transaction state on any error (rollback).
* Monetary values (the `price` decimal columns and the accumulated total)
  are rationals; `Number(product.price)` is the identity in this model.
* Stock and quantities are integers: the service itself performs no sign
  validation on quantities (that lives in the DTO layer, which is outside
  the engine).
* Lower-level (non-domain) faults that the storage layer may raise are
  modelled by an optional injected fault `inj` that fires at the final
  save step of the transaction body, after all staged mutations.
* Exceptions are the `Err` type: `notFound` (`NotFoundException`),
  `invalidRequest` (`BadRequestException`), `internalFailure`
  (`InternalServerErrorException`) and `lowLevel` (a non-`HttpException`
  fault). The first three are `HttpException`s.
-/

namespace Orders

/-- Catalog product row. `src/products/product.entity.ts` is not under
`src/`; the fields are exactly those the service reads and writes:
`id`, `name`, `price`, `stock`, `isAvailable`. -/
structure Product where
  id : Nat
  name : String
  price : Rat
  stock : Int
  isAvailable : Bool
deriving DecidableEq

/-- Modelled from the spec: `order.entity.ts` is not under `src/`. The
status enum has `PENDING`, `CANCELLED` "and other terminal/in-progress
statuses assigned by external business process" (spec section 3), which we
model with an abstract tag. -/
inductive OrderStatus where
  | pending
  | cancelled
  | other (tag : Nat)
deriving DecidableEq

/-- Order header row: id, owner, status and the derived total. -/
structure Order where
  id : Nat
  userId : Nat
  status : OrderStatus
  total : Rat
deriving DecidableEq

/-- Order line-item row: back-reference to the order, product reference,
quantity and the price snapshot taken at creation time. -/
structure OrderItem where
  orderId : Nat
  productId : Nat
  quantity : Int
  price : Rat
deriving DecidableEq

/-- One line of a create request (`OrderItemDto`). -/
structure OrderItemDto where
  productId : Nat
  quantity : Int
deriving DecidableEq

/-- A create request (`CreateOrderDto`): owner id and line items. -/
structure CreateOrderDto where
  userId : Nat
  items : List OrderItemDto
deriving DecidableEq

/-- The persistent database: the user table is reduced to the set of
existing user ids (only existence is consulted), plus the product, order
and order-item tables and the next fresh order id. -/
structure DB where
  users : List Nat
  products : List Product
  orders : List Order
  orderItems : List OrderItem
  nextOrderId : Nat
deriving DecidableEq

/-- The exception taxonomy thrown by the service. -/
inductive Err where
  | notFound (msg : String)
  | invalidRequest (msg : String)
  | internalFailure (msg : String)
  | lowLevel (msg : String)
deriving DecidableEq

/-- `e instanceof HttpException`: the three Nest exceptions are
`HttpException`s, a lower-level fault is not. -/
def Err.isHttp : Err → Bool
  | .notFound _ => true
  | .invalidRequest _ => true
  | .internalFailure _ => true
  | .lowLevel _ => false

/-- First-match primary-key lookup in a table, keyed by `key`. -/
def findBy (key : α → Nat) (l : List α) (k : Nat) : Option α :=
  l.find? (fun a => key a == k)

/-- Keyed upsert: replace the first row with the same key, or append. This
is both `Map.set` on the transaction-local cache and `manager.save` on a
table. -/
def upsert (key : α → Nat) : List α → α → List α
  | [], x => [x]
  | y :: rest, x => if key y == key x then x :: rest else y :: upsert key rest x

/-- `manager.findOne(Product, { where: { id } })`. -/
def findProduct (l : List Product) (pid : Nat) : Option Product :=
  findBy Product.id l pid

/-- `manager.save(Product, p)` / `updatedProducts.set(p.id, p)`. -/
def saveProduct (l : List Product) (p : Product) : List Product :=
  upsert Product.id l p

/-- `manager.findOne(Order, { where: { id } })`. -/
def findOrder (l : List Order) (oid : Nat) : Option Order :=
  findBy Order.id l oid

/-- `manager.save(Order, o)`. -/
def saveOrder (l : List Order) (o : Order) : List Order :=
  upsert Order.id l o

/-- The `order.items` relation: all item rows of one order, in insertion
order. -/
def itemsOf (l : List OrderItem) (oid : Nat) : List OrderItem :=
  l.filter (fun it => it.orderId == oid)

/-- Accumulator of the create loop (`orders.service.ts` lines 68-106):
the transaction-local `updatedProducts` cache, the `orderItems` array, the
running `total`, and (instrumentation) the ids of products actually read
from the database under a pessimistic lock. -/
structure LineAcc where
  cache : List Product
  newItems : List OrderItem
  total : Rat
  lockLog : List Nat
deriving DecidableEq

/-- `updatedProducts.get(pid)`. -/
def cacheGet (cache : List Product) (pid : Nat) : Option Product :=
  findBy Product.id cache pid

/-- The per-line loop of `create` (lines 72-106): for each line take the
product from the cache or from a locked read, run the not-found /
availability / stock checks, then stage an `OrderItem`, accumulate the
total, decrement stock, recompute `isAvailable` and put the product in the
cache. Besides the `Except` result it returns the final list of locked
reads. -/
def processLines (snapshot : List Product) (oid : Nat) :
    List OrderItemDto → LineAcc → Except Err LineAcc × List Nat
  | [], acc => (.ok acc, acc.lockLog)
  | line :: rest, acc =>
    let hit := cacheGet acc.cache line.productId
    let log := if hit.isSome then acc.lockLog else acc.lockLog ++ [line.productId]
    let product? := match hit with
      | some p => some p
      | none => findProduct snapshot line.productId
    match product? with
    | none =>
      (.error (.notFound ("Product #" ++ toString line.productId ++ " not found")), log)
    | some product =>
      if product.isAvailable = false then
        (.error (.invalidRequest ("Product " ++ product.name ++ " is not available")), log)
      else if product.stock < line.quantity then
        (.error (.invalidRequest ("Not enough stock for " ++ product.name)), log)
      else
        let item : OrderItem :=
          { orderId := oid, productId := product.id,
            quantity := line.quantity, price := product.price }
        let stockAfter := product.stock - line.quantity
        let product' : Product :=
          { product with stock := stockAfter, isAvailable := decide (stockAfter > 0) }
        processLines snapshot oid rest
          { cache := saveProduct acc.cache product',
            newItems := acc.newItems ++ [item],
            total := acc.total + product.price * (line.quantity : Rat),
            lockLog := log }

/-- The transaction body of `create` (lines 57-118): user lookup (the user
service is not under `src/`; modelled from the spec: it resolves the user
or fails with `NotFound`), insert of the PENDING header with placeholder
total 0, the per-line loop, then the bulk saves of items, products and the
total. Returns the result, the in-transaction database state reached (the
dirty state on failure), and the lock log. -/
def createBody (db : DB) (dto : CreateOrderDto) (inj : Option String) :
    Except Err Order × DB × List Nat :=
  if dto.userId ∉ db.users then
    (.error (.notFound ("User #" ++ toString dto.userId ++ " not found")), db, [])
  else
    let oid := db.nextOrderId
    let order0 : Order := { id := oid, userId := dto.userId, status := .pending, total := 0 }
    let db1 : DB := { db with orders := saveOrder db.orders order0, nextOrderId := oid + 1 }
    match processLines db1.products oid dto.items
        { cache := [], newItems := [], total := 0, lockLog := [] } with
    | (.error e, log) => (.error e, db1, log)
    | (.ok acc, log) =>
      match inj with
      | some msg => (.error (.lowLevel msg), db1, log)
      | none =>
        let db2 : DB :=
          { db1 with
            orderItems := db1.orderItems ++ acc.newItems,
            products := acc.cache.foldl saveProduct db1.products }
        let order1 : Order := { order0 with total := acc.total }
        (.ok order1, { db2 with orders := saveOrder db2.orders order1 }, log)

/-- `create` (lines 52-125): run the body in a transaction; commit the
reached state on success, roll back to the pre-transaction state and
re-raise the error unchanged (`throw e`, line 121) on failure. -/
def create (db : DB) (dto : CreateOrderDto) (inj : Option String) :
    Except Err Order × DB :=
  match createBody db dto inj with
  | (.ok o, db', _) => (.ok o, db')
  | (.error e, _, _) => (.error e, db)

/-- The restock loop of `cancel` (lines 159-171): for each item, re-read
the product from the current in-transaction state under a lock, skip it if
it no longer exists, otherwise add the item quantity to its stock, set
`isAvailable` to `true` unconditionally and save it. -/
def restock (items : List OrderItem) (products : List Product) : List Product :=
  match items with
  | [] => products
  | item :: rest =>
    match findProduct products item.productId with
    | none => restock rest products
    | some p =>
      let p' : Product := { p with stock := p.stock + item.quantity, isAvailable := true }
      restock rest (saveProduct products p')

/-- The transaction body of `cancel` (lines 143-176): locked read of the
order with its items, not-found and PENDING checks, the restock loop, then
the CANCELLED status save. The injected fault fires at the final save,
after the restock mutations were staged. -/
def cancelBody (db : DB) (oid : Nat) (inj : Option String) :
    Except Err Order × DB :=
  match findOrder db.orders oid with
  | none => (.error (.notFound ("Order #" ++ toString oid ++ " not found")), db)
  | some order =>
    if order.status ≠ OrderStatus.pending then
      (.error (.invalidRequest "Only pending orders can be cancelled"), db)
    else
      let db1 : DB := { db with products := restock (itemsOf db.orderItems oid) db.products }
      match inj with
      | some msg => (.error (.lowLevel msg), db1)
      | none =>
        let order' : Order := { order with status := .cancelled }
        (.ok order', { db1 with orders := saveOrder db1.orders order' })

/-- `cancel` (lines 138-189): run the body in a transaction; on failure
roll back, then re-raise `HttpException`s unchanged and translate anything
else to `InternalServerErrorException('Failed to cancel order')`
(lines 184-185). -/
def cancel (db : DB) (oid : Nat) (inj : Option String) :
    Except Err Order × DB :=
  match cancelBody db oid inj with
  | (.ok o, db') => (.ok o, db')
  | (.error e, _) =>
    if e.isHttp then (.error e, db)
    else (.error (.internalFailure "Failed to cancel order"), db)

/-- `updateStatus` (lines 127-136): a CANCELLED target delegates to
`cancel`; otherwise load the order (`findOne` raises `NotFound` when it is
absent), refuse to touch a cancelled order, and persist the new status.
No product or item row is touched on this path. -/
def updateStatus (db : DB) (oid : Nat) (status : OrderStatus) (inj : Option String) :
    Except Err Order × DB :=
  if status = OrderStatus.cancelled then cancel db oid inj
  else
    match findOrder db.orders oid with
    | none => (.error (.notFound ("Order #" ++ toString oid ++ " not found")), db)
    | some order =>
      if order.status = OrderStatus.cancelled then
        (.error (.invalidRequest "Cannot update a cancelled order"), db)
      else
        let order' : Order := { order with status := status }
        (.ok order', { db with orders := saveOrder db.orders order' })

/-- Sum of the requested quantities of one product id over the lines of a
create request. -/
def requestQty (items : List OrderItemDto) (pid : Nat) : Int :=
  ((items.filter (fun l => l.productId == pid)).map (fun l => l.quantity)).sum

/-- Sum of the quantities of one product id over a list of item rows. -/
def itemsQty (items : List OrderItem) (pid : Nat) : Int :=
  ((items.filter (fun it => it.productId == pid)).map (fun it => it.quantity)).sum

/-- The catalog price of a product id (0 if absent; only used where the
product is known to exist). -/
def priceOf (s : List Product) (pid : Nat) : Rat :=
  match findProduct s pid with
  | some p => p.price
  | none => 0

/-- The item rows a successful create call stages for a request: one per
line, in order, with the price snapshotted from the catalog. -/
def creationItems (db : DB) (dto : CreateOrderDto) : List OrderItem :=
  dto.items.map (fun l =>
    { orderId := db.nextOrderId, productId := l.productId,
      quantity := l.quantity, price := priceOf db.products l.productId })

/-- The lock log of a create call: which product ids were read from the
database under a pessimistic lock. -/
def createLockLog (db : DB) (dto : CreateOrderDto) (inj : Option String) : List Nat :=
  (createBody db dto inj).2.2

/-- Table well-formedness: primary keys are unique and every order id is
below the next fresh id. -/
def WF (db : DB) : Prop :=
  (db.products.map Product.id).Nodup ∧ (db.orders.map Order.id).Nodup ∧
    ∀ o ∈ db.orders, o.id < db.nextOrderId

section KeyedTable

variable {α : Type} (key : α → Nat)

theorem findBy_eq_some {l : List α} {k : Nat} {x : α}
    (h : findBy key l k = some x) : key x = k ∧ x ∈ l := by
  have h1 := List.find?_some h
  have h2 := List.mem_of_find?_eq_some h
  exact ⟨by simpa using h1, h2⟩

theorem findBy_eq_none {l : List α} {k : Nat} :
    findBy key l k = none ↔ ∀ x ∈ l, key x ≠ k := by
  simp [findBy, List.find?_eq_none]

theorem findBy_isSome_iff {l : List α} {k : Nat} :
    (findBy key l k).isSome ↔ k ∈ l.map key := by
  rcases h : findBy key l k with _ | x
  · rw [findBy_eq_none] at h
    simp only [Option.isSome_none, Bool.false_eq_true, false_iff]
    intro hk
    rcases List.mem_map.mp hk with ⟨x, hx, hkx⟩
    exact h x hx hkx
  · obtain ⟨hk, hx⟩ := findBy_eq_some key h
    simp only [Option.isSome_some, true_iff]
    exact hk ▸ List.mem_map_of_mem key hx

theorem findBy_upsert_self (l : List α) (x : α) :
    findBy key (upsert key l x) (key x) = some x := by
  induction l with
  | nil => simp [upsert, findBy, List.find?]
  | cons y rest ih =>
    rcases hb : (key y == key x) with _ | _
    · simpa [upsert, hb, findBy, List.find?] using ih
    · simp [upsert, hb, findBy, List.find?]

theorem findBy_upsert_ne (l : List α) (x : α) {k : Nat} (hk : k ≠ key x) :
    findBy key (upsert key l x) k = findBy key l k := by
  induction l with
  | nil =>
    have : (key x == k) = false := by simp [Ne.symm hk]
    simp [upsert, findBy, List.find?, this]
  | cons y rest ih =>
    rcases hb : (key y == key x) with _ | _
    · rcases hyk : (key y == k) with _ | _
      · simpa [upsert, hb, findBy, List.find?, hyk] using ih
      · simp [upsert, hb, findBy, List.find?, hyk]
    · have hyx : key y = key x := by simpa using hb
      have : (key x == k) = false := by simp [Ne.symm hk]
      simp [upsert, hb, findBy, List.find?, this, hyx ▸ this]

theorem mem_upsert {l : List α} {x q : α} (h : q ∈ upsert key l x) :
    q = x ∨ q ∈ l := by
  induction l with
  | nil => simpa [upsert] using h
  | cons y rest ih =>
    rcases hb : (key y == key x) with _ | _
    · rw [upsert, hb] at h
      simp only [Bool.false_eq_true, if_false, List.mem_cons] at h
      rcases h with h | h
      · exact Or.inr (h ▸ List.mem_cons_self y rest)
      · rcases ih h with h | h
        · exact Or.inl h
        · exact Or.inr (List.mem_cons_of_mem y h)
    · rw [upsert, hb] at h
      simp only [if_true, List.mem_cons] at h
      rcases h with h | h
      · exact Or.inl h
      · exact Or.inr (List.mem_cons_of_mem y h)

theorem mem_map_key_upsert {l : List α} {x : α} {k : Nat}
    (h : k ∈ (upsert key l x).map key) : k ∈ l.map key ∨ k = key x := by
  rcases List.mem_map.mp h with ⟨q, hq, hkq⟩
  rcases mem_upsert key hq with h | h
  · exact Or.inr (by rw [← hkq, h])
  · exact Or.inl (hkq ▸ List.mem_map_of_mem key h)

theorem nodup_map_key_upsert {l : List α} {x : α}
    (h : (l.map key).Nodup) : ((upsert key l x).map key).Nodup := by
  induction l with
  | nil => simp [upsert]
  | cons y rest ih =>
    simp only [List.map_cons, List.nodup_cons] at h
    rcases hb : (key y == key x) with _ | _
    · rw [upsert, hb]
      simp only [Bool.false_eq_true, if_false, List.map_cons, List.nodup_cons]
      refine ⟨fun hmem => ?_, ih h.2⟩
      rcases mem_map_key_upsert key hmem with hmem | hmem
      · exact h.1 hmem
      · exact absurd hmem (by simpa using hb)
    · have hyx : key y = key x := by simpa using hb
      rw [upsert, hb]
      simp only [if_true, List.map_cons, List.nodup_cons]
      exact ⟨hyx ▸ h.1, h.2⟩

theorem mem_upsert_of_nodup {l : List α} {x q : α}
    (hnd : (l.map key).Nodup) (h : q ∈ upsert key l x) (hk : key q = key x) :
    q = x := by
  induction l with
  | nil => simpa [upsert] using h
  | cons y rest ih =>
    simp only [List.map_cons, List.nodup_cons] at hnd
    rcases hb : (key y == key x) with _ | _
    · rw [upsert, hb] at h
      simp only [Bool.false_eq_true, if_false, List.mem_cons] at h
      rcases h with h | h
      · exact absurd (h ▸ hk) (by simpa using hb)
      · exact ih hnd.2 h
    · rw [upsert, hb] at h
      simp only [if_true, List.mem_cons] at h
      rcases h with h | h
      · exact h
      · have hyx : key y = key x := by simpa using hb
        exact absurd (hk ▸ List.mem_map_of_mem key h) (hyx ▸ hnd.1)

theorem upsert_of_not_mem_key {l : List α} {x : α}
    (h : key x ∉ l.map key) : upsert key l x = l ++ [x] := by
  induction l with
  | nil => simp [upsert]
  | cons y rest ih =>
    simp only [List.map_cons, List.mem_cons, not_or] at h
    have hb : (key y == key x) = false := by
      simp only [beq_eq_false_iff_ne, ne_eq]
      exact fun hc => h.1 hc.symm
    simp [upsert, hb, ih h.2]

theorem upsert_upsert_same {l : List α} {x y : α} (hk : key x = key y) :
    upsert key (upsert key l x) y = upsert key l y := by
  induction l with
  | nil =>
    have hxy : (key x == key y) = true := by simp [hk]
    simp [upsert, hxy]
  | cons z rest ih =>
    rcases hb : (key z == key x) with _ | _
    · have hb' : (key z == key y) = false := by rw [← hk]; exact hb
      simp only [upsert, hb, hb', Bool.false_eq_true, if_false]
      rw [ih]
    · have hzy : (key z == key y) = true := by rw [← hk]; exact hb
      have hxy : (key x == key y) = true := by simp [hk]
      simp only [upsert, hb, hzy, hxy, if_true]

theorem findBy_foldl_upsert_of_none (cache : List α) :
    ∀ (prods : List α) (k : Nat), findBy key cache k = none →
      findBy key (cache.foldl (upsert key) prods) k = findBy key prods k := by
  induction cache with
  | nil => intro prods k _; rfl
  | cons d rest ih =>
    intro prods k h
    rcases hb : (key d == k) with _ | _
    · have hrest : findBy key rest k = none := by
        rw [findBy, List.find?] at h
        rw [hb] at h
        exact h
      rw [List.foldl_cons, ih (upsert key prods d) k hrest,
        findBy_upsert_ne key prods d (Ne.symm (by simpa using hb))]
    · exfalso
      rw [findBy, List.find?] at h
      rw [hb] at h
      exact Option.noConfusion h

theorem findBy_foldl_upsert_of_some (cache : List α) :
    ∀ (prods : List α) (k : Nat) (c : α), (cache.map key).Nodup →
      findBy key cache k = some c →
      findBy key (cache.foldl (upsert key) prods) k = some c := by
  induction cache with
  | nil => intro prods k c _ h; simp [findBy, List.find?] at h
  | cons d rest ih =>
    intro prods k c hnd h
    simp only [List.map_cons, List.nodup_cons] at hnd
    rw [List.foldl_cons]
    rcases hb : (key d == k) with _ | _
    · have hrest : findBy key rest k = some c := by
        rw [findBy, List.find?] at h
        rw [hb] at h
        exact h
      exact ih (upsert key prods d) k c hnd.2 hrest
    · have hdc : d = c := by
        rw [findBy, List.find?] at h
        rw [hb] at h
        exact Option.some.inj h
      have hkd : key d = k := by simpa using hb
      have hnone : findBy key rest k = none := by
        rw [findBy_eq_none]
        intro z hz hkz
        exact hnd.1 (by rw [hkd, ← hkz]; exact List.mem_map_of_mem key hz)
      rw [findBy_foldl_upsert_of_none key rest (upsert key prods d) k hnone]
      rw [← hkd, ← hdc]
      exact findBy_upsert_self key prods d

end KeyedTable

theorem requestQty_append (a b : List OrderItemDto) (pid : Nat) :
    requestQty (a ++ b) pid = requestQty a pid + requestQty b pid := by
  simp [requestQty, List.filter_append]

theorem requestQty_singleton (l : OrderItemDto) (pid : Nat) :
    requestQty [l] pid = if l.productId = pid then l.quantity else 0 := by
  by_cases h : l.productId = pid <;> simp [requestQty, h]

theorem requestQty_of_not_mem {items : List OrderItemDto} {pid : Nat}
    (h : pid ∉ items.map OrderItemDto.productId) : requestQty items pid = 0 := by
  have hnil : items.filter (fun l => l.productId == pid) = [] := by
    rw [List.filter_eq_nil_iff]
    intro a ha
    simp only [beq_iff_eq]
    exact fun hc => h (hc ▸ List.mem_map_of_mem OrderItemDto.productId ha)
  simp [requestQty, hnil]

theorem priceOf_eq {s : List Product} {pid : Nat} {p : Product}
    (h : findProduct s pid = some p) : priceOf s pid = p.price := by
  simp [priceOf, h]

theorem itemsQty_cons (it : OrderItem) (rest : List OrderItem) (pid : Nat) :
    itemsQty (it :: rest) pid =
      (if it.productId = pid then it.quantity else 0) + itemsQty rest pid := by
  by_cases h : it.productId = pid <;> simp [itemsQty, List.filter_cons, h]

/-- Invariant of the create loop, relating the accumulator after the lines
`done` have been processed to the read snapshot `s`: every cached product
is the snapshot row with the quantities of the already-processed lines of
this request subtracted and `isAvailable` recomputed (and never negative);
the cache keys are exactly the processed product ids; the staged items and
the running total match the processed lines with snapshot prices; and the
lock log is duplicate-free and within the cache keys. -/
structure AccInv (s : List Product) (oid : Nat) (done : List OrderItemDto)
    (acc : LineAcc) : Prop where
  keysNodup : (acc.cache.map Product.id).Nodup
  cacheMem : ∀ p' ∈ acc.cache, ∃ p, findProduct s p'.id = some p ∧
      p'.id = p.id ∧ p'.name = p.name ∧ p'.price = p.price ∧
      p'.stock = p.stock - requestQty done p'.id ∧
      p'.isAvailable = decide (p'.stock > 0) ∧ 0 ≤ p'.stock
  cacheKeys : ∀ pid, (cacheGet acc.cache pid).isSome ↔
      pid ∈ done.map OrderItemDto.productId
  itemsEq : acc.newItems = done.map (fun l =>
      { orderId := oid, productId := l.productId, quantity := l.quantity,
        price := priceOf s l.productId })
  totalEq : acc.total =
      (done.map (fun l => priceOf s l.productId * (l.quantity : Rat))).sum
  logNodup : acc.lockLog.Nodup
  logSub : ∀ k ∈ acc.lockLog, (cacheGet acc.cache k).isSome

theorem AccInv.start (s : List Product) (oid : Nat) :
    AccInv s oid [] { cache := [], newItems := [], total := 0, lockLog := [] } := by
  refine ⟨by simp, by simp, by simp [cacheGet, findBy, List.find?], by simp,
    by simp, by simp, by simp⟩

theorem AccInv.stepHit (s : List Product) (oid : Nat) (done : List OrderItemDto)
    (acc : LineAcc) (inv : AccInv s oid done acc) (line : OrderItemDto) (p' : Product)
    (hhit : cacheGet acc.cache line.productId = some p')
    (hav : p'.isAvailable = true) (hstock : ¬ p'.stock < line.quantity) :
    AccInv s oid (done ++ [line])
      { cache := saveProduct acc.cache
          { p' with stock := p'.stock - line.quantity,
                    isAvailable := decide (p'.stock - line.quantity > 0) },
        newItems := acc.newItems ++
          [{ orderId := oid, productId := p'.id, quantity := line.quantity,
             price := p'.price }],
        total := acc.total + p'.price * (line.quantity : Rat),
        lockLog := acc.lockLog } := by
  obtain ⟨hid, hmem⟩ := findBy_eq_some Product.id hhit
  obtain ⟨p, hp, hpid, hpname, hpprice, hpstock, _, _⟩ := inv.cacheMem p' hmem
  set pnew : Product :=
    { p' with stock := p'.stock - line.quantity,
              isAvailable := decide (p'.stock - line.quantity > 0) } with hpnew
  have hprice : priceOf s line.productId = p'.price := by
    rw [← hid, priceOf_eq hp]
    exact hpprice.symm
  refine ⟨nodup_map_key_upsert Product.id inv.keysNodup, ?_, ?_, ?_, ?_,
    inv.logNodup, ?_⟩
  · intro q hq
    by_cases hqk : q.id = pnew.id
    · have hq' : q = pnew := mem_upsert_of_nodup Product.id inv.keysNodup hq hqk
      subst hq'
      refine ⟨p, hp, hpid, hpname, hpprice, ?_, rfl, ?_⟩
      · have hq1 : requestQty (done ++ [line]) p'.id =
            requestQty done p'.id + line.quantity := by
          rw [requestQty_append, requestQty_singleton, if_pos hid.symm]
        show p'.stock - line.quantity = p.stock - requestQty (done ++ [line]) p'.id
        rw [hq1, hpstock]
        ring
      · show (0 : Int) ≤ p'.stock - line.quantity
        omega
    · rcases mem_upsert Product.id hq with hq' | hq'
      · exact absurd (congrArg Product.id hq') hqk
      · obtain ⟨r, hr, hrid, hrname, hrprice, hrstock, hrav, hrnn⟩ :=
          inv.cacheMem q hq'
        refine ⟨r, hr, hrid, hrname, hrprice, ?_, hrav, hrnn⟩
        rw [requestQty_append, requestQty_singleton,
          if_neg (fun hc => hqk (by rw [← hc]; exact hid.symm)), add_zero]
        exact hrstock
  · intro pid
    have hupself : cacheGet (saveProduct acc.cache pnew) pnew.id = some pnew :=
      findBy_upsert_self Product.id acc.cache pnew
    by_cases hk : pid = pnew.id
    · subst hk
      rw [hupself]
      simp only [Option.isSome_some, List.map_append, List.mem_append, true_iff]
      right
      simp only [List.map_cons, List.map_nil, List.mem_singleton]
      exact hid
    · have hne : cacheGet (saveProduct acc.cache pnew) pid = cacheGet acc.cache pid :=
        findBy_upsert_ne Product.id acc.cache pnew hk
      rw [hne, inv.cacheKeys pid]
      simp only [List.map_append, List.mem_append, List.map_cons, List.map_nil,
        List.mem_singleton]
      constructor
      · exact Or.inl
      · rintro (h | h)
        · exact h
        · exact absurd (h.trans hid.symm) hk
  · rw [inv.itemsEq, List.map_append]
    simp only [List.map_cons, List.map_nil]
    rw [hid, hprice]
  · rw [inv.totalEq, List.map_append, List.sum_append]
    simp only [List.map_cons, List.map_nil, List.sum_cons, List.sum_nil, add_zero]
    rw [hprice]
  · intro k hk
    by_cases hkk : k = pnew.id
    · subst hkk
      have hupself : cacheGet (saveProduct acc.cache pnew) pnew.id = some pnew :=
        findBy_upsert_self Product.id acc.cache pnew
      rw [hupself]
      rfl
    · have hne : cacheGet (saveProduct acc.cache pnew) k = cacheGet acc.cache k :=
        findBy_upsert_ne Product.id acc.cache pnew hkk
      rw [hne]
      exact inv.logSub k hk

theorem AccInv.stepMiss (s : List Product) (oid : Nat) (done : List OrderItemDto)
    (acc : LineAcc) (inv : AccInv s oid done acc) (line : OrderItemDto) (p : Product)
    (hhit : cacheGet acc.cache line.productId = none)
    (hfind : findProduct s line.productId = some p)
    (hav : p.isAvailable = true) (hstock : ¬ p.stock < line.quantity) :
    AccInv s oid (done ++ [line])
      { cache := saveProduct acc.cache
          { p with stock := p.stock - line.quantity,
                   isAvailable := decide (p.stock - line.quantity > 0) },
        newItems := acc.newItems ++
          [{ orderId := oid, productId := p.id, quantity := line.quantity,
             price := p.price }],
        total := acc.total + p.price * (line.quantity : Rat),
        lockLog := acc.lockLog ++ [line.productId] } := by
  obtain ⟨hid, _⟩ := findBy_eq_some Product.id hfind
  have hnodone : line.productId ∉ done.map OrderItemDto.productId := by
    intro hc
    rw [← inv.cacheKeys line.productId, hhit] at hc
    simp at hc
  have hq0 : requestQty done line.productId = 0 := requestQty_of_not_mem hnodone
  have hnotlog : line.productId ∉ acc.lockLog := by
    intro hc
    have hs := inv.logSub _ hc
    rw [hhit] at hs
    simp at hs
  set pnew : Product :=
    { p with stock := p.stock - line.quantity,
             isAvailable := decide (p.stock - line.quantity > 0) } with hpnew
  have hprice : priceOf s line.productId = p.price := priceOf_eq hfind
  refine ⟨nodup_map_key_upsert Product.id inv.keysNodup, ?_, ?_, ?_, ?_, ?_, ?_⟩
  · intro q hq
    by_cases hqk : q.id = pnew.id
    · have hq' : q = pnew := mem_upsert_of_nodup Product.id inv.keysNodup hq hqk
      subst hq'
      refine ⟨p, by rw [show pnew.id = p.id from rfl, hid]; exact hfind,
        rfl, rfl, rfl, ?_, rfl, ?_⟩
      · have hq1 : requestQty (done ++ [line]) p.id =
            requestQty done p.id + line.quantity := by
          rw [requestQty_append, requestQty_singleton, if_pos hid.symm]
        show p.stock - line.quantity = p.stock - requestQty (done ++ [line]) p.id
        rw [hq1, show requestQty done p.id = requestQty done line.productId from
          hid ▸ rfl, hq0]
        ring
      · show (0 : Int) ≤ p.stock - line.quantity
        omega
    · rcases mem_upsert Product.id hq with hq' | hq'
      · exact absurd (congrArg Product.id hq') hqk
      · obtain ⟨r, hr, hrid, hrname, hrprice, hrstock, hrav, hrnn⟩ :=
          inv.cacheMem q hq'
        refine ⟨r, hr, hrid, hrname, hrprice, ?_, hrav, hrnn⟩
        rw [requestQty_append, requestQty_singleton,
          if_neg (fun hc => hqk (by rw [← hc]; exact hid.symm)), add_zero]
        exact hrstock
  · intro pid
    have hupself : cacheGet (saveProduct acc.cache pnew) pnew.id = some pnew :=
      findBy_upsert_self Product.id acc.cache pnew
    by_cases hk : pid = pnew.id
    · subst hk
      rw [hupself]
      simp only [Option.isSome_some, List.map_append, List.mem_append, true_iff]
      right
      simp only [List.map_cons, List.map_nil, List.mem_singleton]
      exact hid
    · have hne : cacheGet (saveProduct acc.cache pnew) pid = cacheGet acc.cache pid :=
        findBy_upsert_ne Product.id acc.cache pnew hk
      rw [hne, inv.cacheKeys pid]
      simp only [List.map_append, List.mem_append, List.map_cons, List.map_nil,
        List.mem_singleton]
      constructor
      · exact Or.inl
      · rintro (h | h)
        · exact h
        · exact absurd (h.trans hid.symm) hk
  · rw [inv.itemsEq, List.map_append]
    simp only [List.map_cons, List.map_nil]
    rw [hid, hprice]
  · rw [inv.totalEq, List.map_append, List.sum_append]
    simp only [List.map_cons, List.map_nil, List.sum_cons, List.sum_nil, add_zero]
    rw [hprice]
  · refine List.Nodup.append inv.logNodup (List.nodup_singleton _) ?_
    intro a ha ha'
    simp only [List.mem_singleton] at ha'
    exact hnotlog (ha' ▸ ha)
  · intro k hk
    rcases List.mem_append.mp hk with hk' | hk'
    · have hkk : k ≠ pnew.id := by
        intro hc
        exact hnotlog ((show pnew.id = line.productId from hid) ▸ hc ▸ hk')
      have hne : cacheGet (saveProduct acc.cache pnew) k = cacheGet acc.cache k :=
        findBy_upsert_ne Product.id acc.cache pnew hkk
      rw [hne]
      exact inv.logSub k hk'
    · simp only [List.mem_singleton] at hk'
      subst hk'
      have hupself : cacheGet (saveProduct acc.cache pnew) pnew.id = some pnew :=
        findBy_upsert_self Product.id acc.cache pnew
      rw [show line.productId = pnew.id from hid.symm, hupself]
      rfl

theorem nodup_append_singleton {l : List Nat} {a : Nat}
    (h : l.Nodup) (ha : a ∉ l) : (l ++ [a]).Nodup := by
  refine List.Nodup.append h (List.nodup_singleton _) ?_
  intro x hx hx'
  simp only [List.mem_singleton] at hx'
  exact ha (hx' ▸ hx)

theorem AccInv.not_in_log {s : List Product} {oid : Nat} {done : List OrderItemDto}
    {acc : LineAcc} (inv : AccInv s oid done acc) {pid : Nat}
    (hhit : cacheGet acc.cache pid = none) : pid ∉ acc.lockLog := by
  intro hc
  have hs := inv.logSub _ hc
  rw [hhit] at hs
  simp at hs

theorem processLines_ok_inv (s : List Product) (oid : Nat) :
    ∀ (lines done : List OrderItemDto) (acc acc' : LineAcc) (log : List Nat),
      AccInv s oid done acc →
      processLines s oid lines acc = (.ok acc', log) →
      AccInv s oid (done ++ lines) acc' := by
  intro lines
  induction lines with
  | nil =>
    intro done acc acc' log inv h
    simp only [processLines, Prod.mk.injEq, Except.ok.injEq] at h
    rw [List.append_nil]
    exact h.1 ▸ inv
  | cons line rest ih =>
    intro done acc acc' log inv h
    cases hhit : cacheGet acc.cache line.productId with
    | some p' =>
      rcases hav : p'.isAvailable with _ | _
      · simp [processLines, hhit, hav] at h
      · by_cases hstock : p'.stock < line.quantity
        · simp [processLines, hhit, hav, hstock] at h
        · simp only [processLines, hhit, hav, Option.isSome_some, if_true,
            Bool.true_eq_false, if_neg hstock, if_false] at h
          have inv' := AccInv.stepHit s oid done acc inv line p' hhit hav hstock
          have hres := ih (done ++ [line]) _ acc' log inv' h
          rw [List.append_assoc] at hres
          exact hres
    | none =>
      cases hfind : findProduct s line.productId with
      | none => simp [processLines, hhit, hfind] at h
      | some p =>
        rcases hav : p.isAvailable with _ | _
        · simp [processLines, hhit, hfind, hav] at h
        · by_cases hstock : p.stock < line.quantity
          · simp [processLines, hhit, hfind, hav, hstock] at h
          · simp only [processLines, hhit, hfind, Option.isSome_none, if_false,
              hav, Bool.true_eq_false, if_neg hstock] at h
            have inv' := AccInv.stepMiss s oid done acc inv line p hhit hfind hav hstock
            have hres := ih (done ++ [line]) _ acc' log inv' h
            rw [List.append_assoc] at hres
            exact hres

theorem processLines_log_nodup (s : List Product) (oid : Nat) :
    ∀ (lines done : List OrderItemDto) (acc : LineAcc),
      AccInv s oid done acc →
      (processLines s oid lines acc).2.Nodup := by
  intro lines
  induction lines with
  | nil =>
    intro done acc inv
    simpa [processLines] using inv.logNodup
  | cons line rest ih =>
    intro done acc inv
    cases hhit : cacheGet acc.cache line.productId with
    | some p' =>
      rcases hav : p'.isAvailable with _ | _
      · simpa [processLines, hhit, hav] using inv.logNodup
      · by_cases hstock : p'.stock < line.quantity
        · simpa [processLines, hhit, hav, hstock] using inv.logNodup
        · simp only [processLines, hhit, hav, Option.isSome_some, if_true,
            Bool.true_eq_false, if_neg hstock, if_false]
          exact ih (done ++ [line]) _
            (AccInv.stepHit s oid done acc inv line p' hhit hav hstock)
    | none =>
      have hnolog : line.productId ∉ acc.lockLog := inv.not_in_log hhit
      cases hfind : findProduct s line.productId with
      | none =>
        simpa [processLines, hhit, hfind] using
          nodup_append_singleton inv.logNodup hnolog
      | some p =>
        rcases hav : p.isAvailable with _ | _
        · simpa [processLines, hhit, hfind, hav] using
            nodup_append_singleton inv.logNodup hnolog
        · by_cases hstock : p.stock < line.quantity
          · simpa [processLines, hhit, hfind, hav, hstock] using
              nodup_append_singleton inv.logNodup hnolog
          · simp only [processLines, hhit, hfind, Option.isSome_none, if_false,
              hav, Bool.true_eq_false, if_neg hstock]
            exact ih (done ++ [line]) _
              (AccInv.stepMiss s oid done acc inv line p hhit hfind hav hstock)

theorem mem_foldl_upsert {α : Type} (key : α → Nat) (cache : List α) :
    ∀ prods q, q ∈ cache.foldl (upsert key) prods → q ∈ prods ∨ q ∈ cache := by
  induction cache with
  | nil => intro prods q h; exact Or.inl h
  | cons c rest ih =>
    intro prods q h
    rcases ih (upsert key prods c) q h with h' | h'
    · rcases mem_upsert key h' with h'' | h''
      · exact Or.inr (h'' ▸ List.mem_cons_self c rest)
      · exact Or.inl h''
    · exact Or.inr (List.mem_cons_of_mem c h')

theorem create_eq_of_body_ok {db : DB} {dto : CreateOrderDto} {inj : Option String}
    {o : Order} {db' : DB} {log : List Nat}
    (h : createBody db dto inj = (.ok o, db', log)) :
    create db dto inj = (.ok o, db') := by
  simp [create, h]

theorem create_eq_of_body_err {db : DB} {dto : CreateOrderDto} {inj : Option String}
    {e : Err} {db' : DB} {log : List Nat}
    (h : createBody db dto inj = (.error e, db', log)) :
    create db dto inj = (.error e, db) := by
  simp [create, h]

theorem create_ok_body {db : DB} {dto : CreateOrderDto} {inj : Option String}
    {o : Order} {db' : DB} (h : create db dto inj = (.ok o, db')) :
    ∃ log, createBody db dto inj = (.ok o, db', log) := by
  rcases hcb : createBody db dto inj with ⟨res, db2, lg⟩
  cases res with
  | ok o2 =>
    rw [create_eq_of_body_ok hcb] at h
    simp only [Prod.mk.injEq, Except.ok.injEq] at h
    obtain ⟨h1, h2⟩ := h
    subst h1; subst h2
    exact ⟨lg, rfl⟩
  | error e =>
    rw [create_eq_of_body_err hcb] at h
    simp at h

/-- Specification of a successful transaction body of `create`: there is a
final loop accumulator satisfying the loop invariant over the full request,
and the committed state is the pre-state plus the PENDING header, the
staged items and the folded-in product cache. -/
theorem createBody_ok (db : DB) (dto : CreateOrderDto) (inj : Option String)
    (o : Order) (db' : DB) (log : List Nat)
    (h : createBody db dto inj = (.ok o, db', log)) :
    ∃ acc, AccInv db.products db.nextOrderId dto.items acc ∧
      o = { id := db.nextOrderId, userId := dto.userId, status := .pending,
            total := acc.total } ∧
      db'.users = db.users ∧
      db'.nextOrderId = db.nextOrderId + 1 ∧
      db'.orderItems = db.orderItems ++ acc.newItems ∧
      db'.products = acc.cache.foldl saveProduct db.products ∧
      db'.orders = saveOrder (saveOrder db.orders
        { id := db.nextOrderId, userId := dto.userId, status := .pending,
          total := 0 }) o := by
  by_cases hus : dto.userId ∈ db.users
  · rcases hPL : processLines db.products db.nextOrderId dto.items
        { cache := [], newItems := [], total := 0, lockLog := [] } with ⟨res, lg⟩
    cases res with
    | error e => simp [createBody, hus, hPL] at h
    | ok acc =>
      cases inj with
      | some msg => simp [createBody, hus, hPL] at h
      | none =>
        have hinv : AccInv db.products db.nextOrderId dto.items acc := by
          have := processLines_ok_inv db.products db.nextOrderId dto.items []
            { cache := [], newItems := [], total := 0, lockLog := [] } acc lg
            (AccInv.start db.products db.nextOrderId) hPL
          simpa using this
        simp only [createBody, hus, not_true_eq_false, if_false, hPL,
          Prod.mk.injEq, Except.ok.injEq] at h
        obtain ⟨ho, hdb, _⟩ := h
        refine ⟨acc, hinv, ho.symm, ?_, ?_, ?_, ?_, ?_⟩ <;>
          rw [← hdb] <;> simp [← ho]
  · simp [createBody, hus] at h

theorem Product.fields_eq {p q : Product} (h1 : p.id = q.id) (h2 : p.name = q.name)
    (h3 : p.price = q.price) (h4 : p.stock = q.stock)
    (h5 : p.isAvailable = q.isAvailable) : p = q := by
  cases p; cases q
  simp only [Product.mk.injEq]
  exact ⟨h1, h2, h3, h4, h5⟩

theorem create_err_spec (db : DB) (dto : CreateOrderDto) (inj : Option String)
    (e : Err) (h : (create db dto inj).1 = Except.error e) :
    create db dto inj = (.error e, db) := by
  rcases hcb : createBody db dto inj with ⟨res, db2, lg⟩
  cases res with
  | ok o2 =>
    rw [create_eq_of_body_ok hcb] at h
    simp at h
  | error e2 =>
    have heq := create_eq_of_body_err hcb
    rw [heq] at h
    obtain rfl := Except.error.inj h
    exact heq

/-- Master specification of a successful `create` call: header fields,
total, committed item rows, committed order rows, and the committed
product table, pointwise. -/
theorem create_ok_spec (db : DB) (dto : CreateOrderDto) (inj : Option String)
    (o : Order) (db' : DB) (h : create db dto inj = (.ok o, db')) :
    o.id = db.nextOrderId ∧ o.userId = dto.userId ∧ o.status = .pending ∧
    o.total = ((creationItems db dto).map
      (fun it => it.price * (it.quantity : Rat))).sum ∧
    db'.users = db.users ∧ db'.nextOrderId = db.nextOrderId + 1 ∧
    db'.orderItems = db.orderItems ++ creationItems db dto ∧
    db'.orders = saveOrder db.orders o ∧
    (∀ pid, pid ∉ dto.items.map OrderItemDto.productId →
      findProduct db'.products pid = findProduct db.products pid) ∧
    (∀ pid, pid ∈ dto.items.map OrderItemDto.productId →
      ∃ p, findProduct db.products pid = some p ∧
        findProduct db'.products pid = some
          { p with stock := p.stock - requestQty dto.items pid,
                   isAvailable := decide (p.stock - requestQty dto.items pid > 0) }) ∧
    (∀ q ∈ db'.products, q ∈ db.products ∨
      (0 ≤ q.stock ∧ q.isAvailable = decide (q.stock > 0))) := by
  obtain ⟨log, hcb⟩ := create_ok_body h
  obtain ⟨acc, hinv, ho, husers, hnext, hitems, hprods, horders⟩ :=
    createBody_ok db dto inj o db' log hcb
  have hitemsEq : acc.newItems = creationItems db dto := hinv.itemsEq
  refine ⟨by rw [ho], by rw [ho], by rw [ho], ?_, husers, hnext, ?_, ?_, ?_, ?_, ?_⟩
  · rw [ho]
    show acc.total = _
    rw [hinv.totalEq, creationItems, List.map_map]
    rfl
  · rw [hitems, hitemsEq]
  · rw [horders]
    exact upsert_upsert_same Order.id (by rw [ho])
  · intro pid hpid
    have hnone : cacheGet acc.cache pid = none := by
      rcases hget : cacheGet acc.cache pid with _ | p'
      · rfl
      · exact absurd ((hinv.cacheKeys pid).mp (by rw [hget]; rfl)) hpid
    rw [hprods]
    exact findBy_foldl_upsert_of_none Product.id acc.cache db.products pid hnone
  · intro pid hpid
    have hsome : (cacheGet acc.cache pid).isSome := (hinv.cacheKeys pid).mpr hpid
    rcases hget : cacheGet acc.cache pid with _ | p'
    · rw [hget] at hsome; simp at hsome
    · obtain ⟨hid, hmem⟩ := findBy_eq_some Product.id hget
      obtain ⟨p, hp, hpid', hpname, hpprice, hpstock, hpav, hpnn⟩ :=
        hinv.cacheMem p' hmem
      refine ⟨p, by rw [← hid]; exact hp, ?_⟩
      have hfold : findProduct (acc.cache.foldl saveProduct db.products) pid = some p' :=
        findBy_foldl_upsert_of_some Product.id acc.cache db.products pid p'
          hinv.keysNodup hget
      rw [hprods, hfold]
      congr 1
      refine Product.fields_eq ?_ ?_ ?_ ?_ ?_
      · exact hid ▸ hpid'
      · exact hpname
      · exact hpprice
      · show p'.stock = p.stock - requestQty dto.items pid
        rw [← hid]
        exact hpstock
      · show p'.isAvailable = decide (p.stock - requestQty dto.items pid > 0)
        rw [hpav, ← hid, ← hpstock]
  · intro q hq
    rw [hprods] at hq
    rcases mem_foldl_upsert Product.id acc.cache db.products q hq with hq' | hq'
    · exact Or.inl hq'
    · obtain ⟨p, _, _, _, _, _, hav, hnn⟩ := hinv.cacheMem q hq'
      exact Or.inr ⟨hnn, hav⟩

theorem itemsQty_of_not_mem {items : List OrderItem} {pid : Nat}
    (h : pid ∉ items.map OrderItem.productId) : itemsQty items pid = 0 := by
  have hnil : items.filter (fun it => it.productId == pid) = [] := by
    rw [List.filter_eq_nil_iff]
    intro a ha
    simp only [beq_iff_eq]
    exact fun hc => h (hc ▸ List.mem_map_of_mem OrderItem.productId ha)
  simp [itemsQty, hnil]

/-- Pointwise effect of the cancel restock loop: a product referenced by
the order's items gains the sum of those items' quantities and ends with
`isAvailable = true`; any other product row is untouched. -/
theorem findProduct_restock (items : List OrderItem) :
    ∀ (prods : List Product), (prods.map Product.id).Nodup → ∀ pid,
      findProduct (restock items prods) pid =
        (findProduct prods pid).map (fun p =>
          if pid ∈ items.map OrderItem.productId then
            { p with stock := p.stock + itemsQty items pid, isAvailable := true }
          else p) := by
  induction items with
  | nil =>
    intro prods _ pid
    cases hf : findProduct prods pid <;> simp [restock, hf]
  | cons it rest ih =>
    intro prods hnd pid
    cases hfind : findProduct prods it.productId with
    | none =>
      rw [show restock (it :: rest) prods = restock rest prods by
        simp [restock, hfind]]
      rw [ih prods hnd pid]
      by_cases hpid : pid = it.productId
      · subst hpid
        simp [hfind]
      · cases hf : findProduct prods pid with
        | none => simp
        | some p =>
          simp only [Option.map_some']
          by_cases hm : pid ∈ rest.map OrderItem.productId
          · have hmc : pid ∈ (it :: rest).map OrderItem.productId := by
              simp [List.mem_cons, hm]
            rw [if_pos hm, if_pos hmc, itemsQty_cons,
              if_neg (fun hc => hpid hc.symm), zero_add]
          · have hmc : pid ∉ (it :: rest).map OrderItem.productId := by
              simp only [List.map_cons, List.mem_cons]
              rintro (hc | hc)
              · exact hpid hc
              · exact hm hc
            rw [if_neg hm, if_neg hmc]
    | some p0 =>
      obtain ⟨hid0, hmem0⟩ := findBy_eq_some Product.id hfind
      set p0' : Product := { p0 with stock := p0.stock + it.quantity, isAvailable := true } with hp0'
      rw [show restock (it :: rest) prods = restock rest (saveProduct prods p0') by
        simp [restock, hfind]]
      have hnd' : ((saveProduct prods p0').map Product.id).Nodup :=
        nodup_map_key_upsert Product.id hnd
      rw [ih _ hnd' pid]
      by_cases hpid : pid = it.productId
      · subst hpid
        have hself : findProduct (saveProduct prods p0') p0.id = some p0' :=
          findBy_upsert_self Product.id prods p0'
        rw [← hid0] at hfind ⊢
        rw [hself, hfind]
        simp only [Option.map_some']
        have hmc : p0.id ∈ (it :: rest).map OrderItem.productId := by
          simp [hid0]
        rw [if_pos hmc]
        by_cases hm : p0.id ∈ rest.map OrderItem.productId
        · rw [if_pos hm]
          refine congrArg some (Product.fields_eq rfl rfl rfl ?_ rfl)
          show p0.stock + it.quantity + itemsQty rest p0.id =
            p0.stock + itemsQty (it :: rest) p0.id
          rw [itemsQty_cons, if_pos hid0.symm]
          ring
        · rw [if_neg hm]
          refine congrArg some (Product.fields_eq rfl rfl rfl ?_ rfl)
          show p0.stock + it.quantity = p0.stock + itemsQty (it :: rest) p0.id
          rw [itemsQty_cons, if_pos hid0.symm, itemsQty_of_not_mem hm]
          ring
      · have hne : findProduct (saveProduct prods p0') pid = findProduct prods pid :=
          findBy_upsert_ne Product.id prods p0' (by
            show pid ≠ Product.id p0'
            simpa [hp0', hid0] using hpid)
        rw [hne]
        cases hf : findProduct prods pid with
        | none => simp
        | some p =>
          simp only [Option.map_some']
          by_cases hm : pid ∈ rest.map OrderItem.productId
          · have hmc : pid ∈ (it :: rest).map OrderItem.productId := by
              simp [List.mem_cons, hm]
            rw [if_pos hm, if_pos hmc, itemsQty_cons,
              if_neg (fun hc => hpid hc.symm), zero_add]
          · have hmc : pid ∉ (it :: rest).map OrderItem.productId := by
              simp only [List.map_cons, List.mem_cons]
              rintro (hc | hc)
              · exact hpid hc
              · exact hm hc
            rw [if_neg hm, if_neg hmc]

/-- The restock loop preserves the stock/availability invariant when all
restocked quantities are positive. -/
theorem restock_inv (items : List OrderItem)
    (hq : ∀ it ∈ items, 1 ≤ it.quantity) :
    ∀ prods, (∀ p ∈ prods, 0 ≤ p.stock ∧ p.isAvailable = decide (p.stock > 0)) →
      ∀ q ∈ restock items prods,
        0 ≤ q.stock ∧ q.isAvailable = decide (q.stock > 0) := by
  induction items with
  | nil =>
    intro prods hp q hmem
    rw [show restock [] prods = prods from rfl] at hmem
    exact hp q hmem
  | cons it rest ih =>
    intro prods hp q hmem
    have hqr : ∀ it' ∈ rest, 1 ≤ it'.quantity :=
      fun it' h => hq it' (List.mem_cons_of_mem _ h)
    cases hfind : findProduct prods it.productId with
    | none =>
      rw [show restock (it :: rest) prods = restock rest prods by
        simp [restock, hfind]] at hmem
      exact ih hqr prods hp q hmem
    | some p0 =>
      rw [show restock (it :: rest) prods =
          restock rest (saveProduct prods
            { p0 with stock := p0.stock + it.quantity, isAvailable := true }) by
        simp [restock, hfind]] at hmem
      refine ih hqr _ ?_ q hmem
      intro r hr
      rcases mem_upsert Product.id hr with h | h
      · subst h
        obtain ⟨_, hmem0⟩ := findBy_eq_some Product.id hfind
        have h0 : 0 ≤ p0.stock := (hp p0 hmem0).1
        have h1 : 1 ≤ it.quantity := hq it (List.mem_cons_self _ _)
        constructor
        · show 0 ≤ p0.stock + it.quantity
          omega
        · show true = decide (p0.stock + it.quantity > 0)
          have : (0 : Int) < p0.stock + it.quantity := by omega
          simp [this]
      · exact hp r h

/-- `cancelBody` on a PENDING order with no injected fault: restock
every item and flip the status to CANCELLED. -/
theorem cancelBody_pending (db : DB) (oid : Nat) (ord : Order)
    (ho : findOrder db.orders oid = some ord) (hp : ord.status = .pending) :
    cancelBody db oid none =
      (.ok { ord with status := .cancelled },
       { db with products := restock (itemsOf db.orderItems oid) db.products,
                 orders := saveOrder db.orders { ord with status := .cancelled } }) := by
  simp [cancelBody, ho, hp]

theorem cancelBody_inj (db : DB) (oid : Nat) (ord : Order) (msg : String)
    (ho : findOrder db.orders oid = some ord) (hp : ord.status = .pending) :
    cancelBody db oid (some msg) =
      (.error (.lowLevel msg),
       { db with products := restock (itemsOf db.orderItems oid) db.products }) := by
  simp [cancelBody, ho, hp]

theorem cancelBody_notFound (db : DB) (oid : Nat) (inj : Option String)
    (ho : findOrder db.orders oid = none) :
    cancelBody db oid inj =
      (.error (.notFound ("Order #" ++ toString oid ++ " not found")), db) := by
  simp [cancelBody, ho]

theorem cancelBody_notPending (db : DB) (oid : Nat) (ord : Order) (inj : Option String)
    (ho : findOrder db.orders oid = some ord) (hp : ord.status ≠ .pending) :
    cancelBody db oid inj =
      (.error (.invalidRequest "Only pending orders can be cancelled"), db) := by
  simp [cancelBody, ho, hp]

theorem cancel_eq_of_body_ok {db : DB} {oid : Nat} {inj : Option String}
    {o : Order} {db' : DB} (h : cancelBody db oid inj = (.ok o, db')) :
    cancel db oid inj = (.ok o, db') := by
  simp [cancel, h]

theorem cancel_eq_of_body_err_http {db : DB} {oid : Nat} {inj : Option String}
    {e : Err} {db' : DB} (h : cancelBody db oid inj = (.error e, db'))
    (he : e.isHttp = true) :
    cancel db oid inj = (.error e, db) := by
  simp [cancel, h, he]

theorem cancel_eq_of_body_err_low {db : DB} {oid : Nat} {inj : Option String}
    {e : Err} {db' : DB} (h : cancelBody db oid inj = (.error e, db'))
    (he : e.isHttp = false) :
    cancel db oid inj = (.error (.internalFailure "Failed to cancel order"), db) := by
  simp [cancel, h, he]

theorem updateStatus_cancelled (db : DB) (oid : Nat) (inj : Option String) :
    updateStatus db oid OrderStatus.cancelled inj = cancel db oid inj := by
  simp [updateStatus]

theorem updateStatus_notFound (db : DB) (oid : Nat) (st : OrderStatus)
    (inj : Option String) (hst : st ≠ OrderStatus.cancelled)
    (ho : findOrder db.orders oid = none) :
    updateStatus db oid st inj =
      (.error (.notFound ("Order #" ++ toString oid ++ " not found")), db) := by
  simp [updateStatus, hst, ho]

theorem updateStatus_terminal (db : DB) (oid : Nat) (st : OrderStatus)
    (inj : Option String) (ord : Order) (hst : st ≠ OrderStatus.cancelled)
    (ho : findOrder db.orders oid = some ord)
    (hc : ord.status = OrderStatus.cancelled) :
    updateStatus db oid st inj =
      (.error (.invalidRequest "Cannot update a cancelled order"), db) := by
  simp [updateStatus, hst, ho, hc]

theorem updateStatus_ok (db : DB) (oid : Nat) (st : OrderStatus)
    (inj : Option String) (ord : Order) (hst : st ≠ OrderStatus.cancelled)
    (ho : findOrder db.orders oid = some ord)
    (hc : ord.status ≠ OrderStatus.cancelled) :
    updateStatus db oid st inj =
      (.ok { ord with status := st },
       { db with orders := saveOrder db.orders { ord with status := st } }) := by
  simp [updateStatus, hst, ho, hc]

/-- Tests whether an error is the opaque internal failure. -/
def Err.isInternalFailure : Err → Bool
  | .internalFailure _ => true
  | _ => false

/-- C1: Order creation is all-or-nothing. If the transaction body fails
with any error (user not found, product not found, product unavailable,
insufficient stock, or an injected lower-level fault), the call rolls the
in-transaction state back — the committed database is exactly the
pre-call database, whatever dirty state the body reached — and if it
succeeds, the committed database contains the PENDING header, one
OrderItem per requested line, and every requested product's stock
decremented by its total requested quantity, all together. -/
theorem create_all_or_nothing (db : DB) (dto : CreateOrderDto) (inj : Option String) :
    (∀ e dirty lg, createBody db dto inj = (.error e, dirty, lg) →
      create db dto inj = (.error e, db)) ∧
    (∀ o db', create db dto inj = (.ok o, db') →
      o.status = .pending ∧
      findOrder db'.orders o.id = some o ∧
      db'.orderItems = db.orderItems ++ creationItems db dto ∧
      (∀ pid, pid ∈ dto.items.map OrderItemDto.productId →
        ∃ p, findProduct db.products pid = some p ∧
          findProduct db'.products pid = some
            { p with stock := p.stock - requestQty dto.items pid,
                     isAvailable := decide (p.stock - requestQty dto.items pid > 0) }) ∧
      (∀ pid, pid ∉ dto.items.map OrderItemDto.productId →
        findProduct db'.products pid = findProduct db.products pid)) := by
  constructor
  · intro e dirty lg h
    exact create_eq_of_body_err h
  · intro o db' h
    obtain ⟨hid, huid, hst, htot, hus, hnext, hitems, horders, hnotmem, hmem, _⟩ :=
      create_ok_spec db dto inj o db' h
    refine ⟨hst, ?_, hitems, hmem, hnotmem⟩
    rw [horders]
    exact findBy_upsert_self Order.id db.orders o

def dbC1 : DB :=
  { users := [1],
    products := [{ id := 10, name := "Gadget", price := 5, stock := 3, isAvailable := true }],
    orders := [], orderItems := [], nextOrderId := 1 }

def dtoC1 : CreateOrderDto := { userId := 1, items := [{ productId := 10, quantity := 2 }] }

def ordC1 : Order := { id := 1, userId := 1, status := OrderStatus.pending, total := 10 }

theorem create_all_or_nothing_witness :
    (create dbC1 dtoC1 none).1 = Except.ok ordC1 ∧
    ordC1.status = OrderStatus.pending ∧
    findOrder (create dbC1 dtoC1 none).2.orders 1 = some ordC1 := by
  have hrun : create dbC1 dtoC1 none =
      (Except.ok ordC1,
       { users := [1],
         products := [{ id := 10, name := "Gadget", price := 5, stock := 1,
                        isAvailable := true }],
         orders := [ordC1],
         orderItems := [{ orderId := 1, productId := 10, quantity := 2, price := 5 }],
         nextOrderId := 2 }) := by
    norm_num [create, createBody, processLines, cacheGet, findProduct, findBy,
      saveProduct, saveOrder, findOrder, upsert, List.find?, dbC1, dtoC1, ordC1]
  have h := (create_all_or_nothing dbC1 dtoC1 none).2 ordC1 _ hrun
  refine ⟨by rw [hrun], h.1, ?_⟩
  have h2 := h.2.1
  rw [show Order.id ordC1 = 1 from rfl] at h2
  rw [hrun]
  exact h2

def dbC2 : DB :=
  { users := [1],
    products := [{ id := 10, name := "Gadget", price := 999/100, stock := 5,
                   isAvailable := true }],
    orders := [], orderItems := [], nextOrderId := 1 }

def dtoC2 : CreateOrderDto := { userId := 1, items := [{ productId := 10, quantity := 2 }] }

def ordC2 : Order := { id := 1, userId := 1, status := OrderStatus.pending, total := 999/50 }

def postC2 : DB :=
  { users := [1],
    products := [{ id := 10, name := "Gadget", price := 999/100, stock := 3,
                   isAvailable := true }],
    orders := [ordC2],
    orderItems := [{ orderId := 1, productId := 10, quantity := 2, price := 999/100 }],
    nextOrderId := 2 }

/-- C2: for every committed order, the total is the sum of
price × quantity over its created items, and every created item's price is
the referenced product's catalog price at creation time; in particular the
9.99 × 2 scenario yields total 19.98 (= 999/50), stock 3 and
`isAvailable = true`. -/
theorem order_total_consistent :
    (∀ (db : DB) (dto : CreateOrderDto) (inj : Option String) (o : Order) (db' : DB),
      create db dto inj = (.ok o, db') →
      o.total = ((creationItems db dto).map
        (fun it => it.price * (it.quantity : Rat))).sum ∧
      db'.orderItems = db.orderItems ++ creationItems db dto ∧
      (∀ it ∈ creationItems db dto,
        ∃ p, findProduct db.products it.productId = some p ∧ it.price = p.price)) ∧
    ((create dbC2 dtoC2 none).1 =
      Except.ok { id := 1, userId := 1, status := OrderStatus.pending, total := 999/50 } ∧
     findProduct (create dbC2 dtoC2 none).2.products 10 =
      some { id := 10, name := "Gadget", price := 999/100, stock := 3,
             isAvailable := true }) := by
  constructor
  · intro db dto inj o db' h
    obtain ⟨hid, huid, hst, htot, hus, hnext, hitems, horders, hnotmem, hmem, _⟩ :=
      create_ok_spec db dto inj o db' h
    refine ⟨htot, hitems, ?_⟩
    intro it hit
    obtain ⟨l, hl, hlit⟩ := List.mem_map.mp hit
    obtain ⟨p, hp, _⟩ := hmem l.productId (List.mem_map_of_mem OrderItemDto.productId hl)
    refine ⟨p, ?_, ?_⟩
    · rw [← hlit]
      exact hp
    · rw [← hlit]
      show priceOf db.products l.productId = p.price
      exact priceOf_eq hp
  · constructor
    · norm_num [create, createBody, processLines, cacheGet, findProduct, findBy,
        saveProduct, saveOrder, upsert, List.find?, dbC2, dtoC2]
    · norm_num [create, createBody, processLines, cacheGet, findProduct, findBy,
        saveProduct, saveOrder, upsert, List.find?, dbC2, dtoC2]

theorem order_total_consistent_witness :
    Order.total ordC2 = ((creationItems dbC2 dtoC2).map
      (fun it => it.price * (it.quantity : Rat))).sum :=
  have hrun : create dbC2 dtoC2 none = (Except.ok ordC2, postC2) := by
    norm_num [create, createBody, processLines, cacheGet, findProduct, findBy,
      saveProduct, saveOrder, upsert, List.find?, dbC2, dtoC2, ordC2, postC2]
  (order_total_consistent.1 dbC2 dtoC2 none ordC2 postC2 hrun).1

/-- The committed-state invariant: stock is non-negative and
`isAvailable` is the cached derivation of `stock > 0` for every product;
and (the inductive strengthening needed for cancellation) every committed
order item has a positive quantity, as the DTO layer guarantees for
engine inputs. -/
def StateInv (db : DB) : Prop :=
  (∀ p ∈ db.products, 0 ≤ p.stock ∧ p.isAvailable = decide (p.stock > 0)) ∧
  (∀ it ∈ db.orderItems, 1 ≤ it.quantity)

/-- Committed states reachable from `db` through engine operations, where
create requests carry the DTO-validated positive quantities. -/
inductive Reach : DB → DB → Prop
  | refl (db : DB) : Reach db db
  | createStep (db db' : DB) (dto : CreateOrderDto) (inj : Option String)
      (h : Reach db db') (hq : ∀ l ∈ dto.items, 1 ≤ l.quantity) :
      Reach db (create db' dto inj).2
  | cancelStep (db db' : DB) (oid : Nat) (inj : Option String)
      (h : Reach db db') : Reach db (cancel db' oid inj).2
  | statusStep (db db' : DB) (oid : Nat) (st : OrderStatus) (inj : Option String)
      (h : Reach db db') : Reach db (updateStatus db' oid st inj).2

theorem StateInv_create (db : DB) (dto : CreateOrderDto) (inj : Option String)
    (hinv : StateInv db) (hq : ∀ l ∈ dto.items, 1 ≤ l.quantity) :
    StateInv (create db dto inj).2 := by
  rcases hcb : createBody db dto inj with ⟨res, db2, lg⟩
  cases res with
  | error e => rw [create_eq_of_body_err hcb]; exact hinv
  | ok o =>
    have hrun := create_eq_of_body_ok hcb
    obtain ⟨_, _, _, _, _, _, hitems, _, _, _, hmemc⟩ :=
      create_ok_spec db dto inj o db2 hrun
    rw [hrun]
    constructor
    · intro p hp
      rcases hmemc p hp with h | h
      · exact hinv.1 p h
      · exact h
    · intro it hit
      rw [hitems] at hit
      rcases List.mem_append.mp hit with h | h
      · exact hinv.2 it h
      · obtain ⟨l, hl, hlit⟩ := List.mem_map.mp h
        rw [← hlit]
        exact hq l hl

theorem StateInv_cancel (db : DB) (oid : Nat) (inj : Option String)
    (hinv : StateInv db) : StateInv (cancel db oid inj).2 := by
  rcases ho : findOrder db.orders oid with _ | ord
  · rw [cancel_eq_of_body_err_http (cancelBody_notFound db oid inj ho) rfl]
    exact hinv
  · by_cases hp : ord.status = OrderStatus.pending
    · cases inj with
      | none =>
        rw [cancel_eq_of_body_ok (cancelBody_pending db oid ord ho hp)]
        refine ⟨?_, hinv.2⟩
        intro p hmem
        refine restock_inv (itemsOf db.orderItems oid) ?_ db.products hinv.1 p hmem
        intro it hit
        exact hinv.2 it (List.mem_of_mem_filter hit)
      | some msg =>
        rw [cancel_eq_of_body_err_low (cancelBody_inj db oid ord msg ho hp) rfl]
        exact hinv
    · rw [cancel_eq_of_body_err_http (cancelBody_notPending db oid ord inj ho hp) rfl]
      exact hinv

theorem StateInv_updateStatus (db : DB) (oid : Nat) (st : OrderStatus)
    (inj : Option String) (hinv : StateInv db) :
    StateInv (updateStatus db oid st inj).2 := by
  by_cases hst : st = OrderStatus.cancelled
  · rw [hst, updateStatus_cancelled]
    exact StateInv_cancel db oid inj hinv
  · rcases ho : findOrder db.orders oid with _ | ord
    · rw [updateStatus_notFound db oid st inj hst ho]
      exact hinv
    · by_cases hc : ord.status = OrderStatus.cancelled
      · rw [updateStatus_terminal db oid st inj ord hst ho hc]
        exact hinv
      · rw [updateStatus_ok db oid st inj ord hst ho hc]
        exact ⟨hinv.1, hinv.2⟩

/-- C3: in every committed state reachable through engine operations from
a state satisfying the invariant, every product's stock is non-negative
and its `isAvailable` flag equals `stock > 0`. -/
theorem stock_invariant (db db' : DB) (hinv : StateInv db) (hr : Reach db db') :
    ∀ p ∈ db'.products, 0 ≤ p.stock ∧ p.isAvailable = decide (p.stock > 0) := by
  suffices h : StateInv db' from h.1
  induction hr with
  | refl => exact hinv
  | createStep dbx dto inj _ hq ih => exact StateInv_create dbx dto inj ih hq
  | cancelStep dbx oid inj _ ih => exact StateInv_cancel dbx oid inj ih
  | statusStep dbx oid st inj _ ih => exact StateInv_updateStatus dbx oid st inj ih

def dbC3 : DB :=
  { users := [1],
    products := [{ id := 10, name := "Gadget", price := 5, stock := 3, isAvailable := true }],
    orders := [], orderItems := [], nextOrderId := 1 }

def dtoC3 : CreateOrderDto := { userId := 1, items := [{ productId := 10, quantity := 2 }] }

def pC3 : Product := { id := 10, name := "Gadget", price := 5, stock := 1, isAvailable := true }

theorem stock_invariant_witness :
    0 ≤ pC3.stock ∧ pC3.isAvailable = decide (pC3.stock > 0) := by
  have hmem : pC3 ∈ (create dbC3 dtoC3 none).2.products := by
    norm_num [create, createBody, processLines, cacheGet, findProduct, findBy,
      saveProduct, saveOrder, upsert, List.find?, dbC3, dtoC3, pC3]
  exact stock_invariant dbC3 (create dbC3 dtoC3 none).2 ⟨by decide, by decide⟩
    (Reach.createStep dbC3 dbC3 dtoC3 none (Reach.refl dbC3) (by decide)) pC3 hmem

theorem createLockLog_nodup (db : DB) (dto : CreateOrderDto) (inj : Option String) :
    (createLockLog db dto inj).Nodup := by
  by_cases hus : dto.userId ∈ db.users
  · have hPL := processLines_log_nodup db.products db.nextOrderId dto.items []
      { cache := [], newItems := [], total := 0, lockLog := [] }
      (AccInv.start db.products db.nextOrderId)
    rcases hpl : processLines db.products db.nextOrderId dto.items
        { cache := [], newItems := [], total := 0, lockLog := [] } with ⟨res, lg⟩
    rw [hpl] at hPL
    cases res with
    | error e =>
      cases inj <;> simpa [createLockLog, createBody, hus, hpl] using hPL
    | ok acc =>
      cases inj <;> simpa [createLockLog, createBody, hus, hpl] using hPL
  · simp [createLockLog, createBody, hus]

theorem requestQty_all {lines : List OrderItemDto} {pid : Nat}
    (h : ∀ l ∈ lines, l.productId = pid) :
    requestQty lines pid = (lines.map (fun l => l.quantity)).sum := by
  have hfe : lines.filter (fun l => l.productId == pid) = lines :=
    List.filter_eq_self.mpr (fun a ha => by simp [h a ha])
  unfold requestQty
  rw [hfe]

/-- If every line of the remaining request targets the same (cached)
product and the combined remaining quantity exceeds the cached
in-transaction stock, the loop fails with a BadRequestException. -/
theorem processLines_single_overflow (s : List Product) (oid : Nat) (pid : Nat) :
    ∀ (lines : List OrderItemDto) (acc : LineAcc) (p' : Product),
      (∀ l ∈ lines, l.productId = pid) →
      cacheGet acc.cache pid = some p' →
      0 ≤ p'.stock →
      p'.stock < (lines.map (fun l => l.quantity)).sum →
      ∃ msg lg, processLines s oid lines acc = (.error (.invalidRequest msg), lg) := by
  intro lines
  induction lines with
  | nil =>
    intro acc p' _ _ hnn hover
    simp only [List.map_nil, List.sum_nil] at hover
    exact absurd hover (by omega)
  | cons line rest ih =>
    intro acc p' hall hget hnn hover
    have hpid : line.productId = pid := hall line (List.mem_cons_self _ _)
    have hget' : cacheGet acc.cache line.productId = some p' := by
      rw [hpid]; exact hget
    rcases hav : p'.isAvailable with _ | _
    · exact ⟨"Product " ++ p'.name ++ " is not available", acc.lockLog,
        by simp [processLines, hget', hav]⟩
    · by_cases hstock : p'.stock < line.quantity
      · exact ⟨"Not enough stock for " ++ p'.name, acc.lockLog,
          by simp [processLines, hget', hav, hstock]⟩
      · obtain ⟨hid, _⟩ := findBy_eq_some Product.id hget
        set p2 : Product := { p' with stock := p'.stock - line.quantity, isAvailable := decide (p'.stock - line.quantity > 0) } with hp2
        have hget2 : cacheGet (saveProduct acc.cache p2) pid = some p2 := by
          have hself := findBy_upsert_self Product.id acc.cache p2
          rw [show Product.id p2 = pid from hid] at hself
          exact hself
        obtain ⟨msg, lg, hrec⟩ := ih
          { cache := saveProduct acc.cache p2,
            newItems := acc.newItems ++
              [{ orderId := oid, productId := p'.id, quantity := line.quantity,
                 price := p'.price }],
            total := acc.total + p'.price * (line.quantity : Rat),
            lockLog := acc.lockLog }
          p2 (fun l hl => hall l (List.mem_cons_of_mem _ hl)) hget2
          (by show (0 : Int) ≤ p'.stock - line.quantity; omega)
          (by
            show p'.stock - line.quantity < (rest.map (fun l => l.quantity)).sum
            simp only [List.map_cons, List.sum_cons] at hover
            omega)
        refine ⟨msg, lg, ?_⟩
        simp only [processLines, hget', hav, Option.isSome_some, if_true,
          Bool.true_eq_false, if_false, if_neg hstock]
        exact hrec

/-- A request whose lines all target one product, whose combined quantity
exceeds that product's stock, fails with a BadRequestException and commits
nothing, because each line's stock check runs against the in-transaction,
already-decremented cache value. -/
theorem create_dup_overflow (db : DB) (dto : CreateOrderDto) (inj : Option String)
    (pid : Nat) (p : Product)
    (hall : ∀ l ∈ dto.items, l.productId = pid)
    (hus : dto.userId ∈ db.users)
    (hfind : findProduct db.products pid = some p)
    (hav : p.isAvailable = true) (hnn : 0 ≤ p.stock)
    (hover : p.stock < requestQty dto.items pid) :
    ∃ msg, create db dto inj = (.error (.invalidRequest msg), db) := by
  rw [requestQty_all hall] at hover
  rcases hli : dto.items with _ | ⟨line, rest⟩
  · rw [hli] at hover
    simp only [List.map_nil, List.sum_nil] at hover
    exact absurd hover (by omega)
  · have hpid : line.productId = pid :=
      hall line (by rw [hli]; exact List.mem_cons_self _ _)
    have hfind' : findProduct db.products line.productId = some p := by
      rw [hpid]; exact hfind
    obtain ⟨hid, _⟩ := findBy_eq_some Product.id hfind
    have hPL : ∃ msg lg, processLines db.products db.nextOrderId (line :: rest)
        { cache := [], newItems := [], total := 0, lockLog := [] } =
        (.error (.invalidRequest msg), lg) := by
      by_cases hstock : p.stock < line.quantity
      · exact ⟨"Not enough stock for " ++ p.name, [line.productId], by
          simp [processLines, cacheGet, findBy, List.find?, hfind', hav, hstock]⟩
      · set p2 : Product := { p with stock := p.stock - line.quantity, isAvailable := decide (p.stock - line.quantity > 0) } with hp2
        have hget2 : cacheGet [p2] pid = some p2 := by
          simp [cacheGet, findBy, List.find?, hp2, hid]
        obtain ⟨msg, lg, hrec⟩ :=
          processLines_single_overflow db.products db.nextOrderId pid rest
          { cache := [p2],
            newItems := [{ orderId := db.nextOrderId, productId := p.id,
                           quantity := line.quantity, price := p.price }],
            total := p.price * (line.quantity : Rat),
            lockLog := [line.productId] }
          p2 (fun l hl => hall l (by rw [hli]; exact List.mem_cons_of_mem _ hl)) hget2
          (by show (0 : Int) ≤ p.stock - line.quantity; omega)
          (by
            show p.stock - line.quantity < (rest.map (fun l => l.quantity)).sum
            rw [hli] at hover
            simp only [List.map_cons, List.sum_cons] at hover
            omega)
        refine ⟨msg, lg, ?_⟩
        rw [show processLines db.products db.nextOrderId (line :: rest)
            { cache := [], newItems := [], total := 0, lockLog := [] } =
            processLines db.products db.nextOrderId rest
            { cache := [p2],
              newItems := [{ orderId := db.nextOrderId, productId := p.id,
                             quantity := line.quantity, price := p.price }],
              total := p.price * (line.quantity : Rat),
              lockLog := [line.productId] } from by
          simp [processLines, cacheGet, findBy, List.find?, hfind', hav, hstock,
            saveProduct, upsert, hp2]]
        exact hrec
    obtain ⟨msg, lg, hPLe⟩ := hPL
    refine ⟨msg, ?_⟩
    have hcb : createBody db dto inj = (.error (.invalidRequest msg),
        { db with
          orders := saveOrder db.orders
            { id := db.nextOrderId, userId := dto.userId,
              status := OrderStatus.pending, total := 0 },
          nextOrderId := db.nextOrderId + 1 }, lg) := by
      simp [createBody, hus, hli, hPLe]
    exact create_eq_of_body_err hcb

def dbC4 : DB :=
  { users := [1],
    products := [{ id := 10, name := "Gadget", price := 5, stock := 5, isAvailable := true }],
    orders := [], orderItems := [], nextOrderId := 1 }

def dtoC4 : CreateOrderDto :=
  { userId := 1,
    items := [{ productId := 10, quantity := 3 }, { productId := 10, quantity := 3 }] }

def pC4 : Product := { id := 10, name := "Gadget", price := 5, stock := 5, isAvailable := true }

/-- C4: the create loop's lock log never reads the same product twice (the
transaction-local cache deduplicates repeated product ids); every line's
stock check runs against the in-transaction value already decremented by
the earlier lines, so a request whose duplicate lines together exceed the
product's stock fails with a BadRequestException and commits no change;
and the concrete duplicate scenario (stock 5, two lines of 3) fails with
"Not enough stock" and leaves the database untouched. -/
theorem dedup_in_transaction_check :
    (∀ (db : DB) (dto : CreateOrderDto) (inj : Option String),
      (createLockLog db dto inj).Nodup) ∧
    (∀ (db : DB) (dto : CreateOrderDto) (inj : Option String) (pid : Nat) (p : Product),
      (∀ l ∈ dto.items, l.productId = pid) →
      dto.userId ∈ db.users →
      findProduct db.products pid = some p →
      p.isAvailable = true →
      0 ≤ p.stock →
      p.stock < requestQty dto.items pid →
      ∃ msg, create db dto inj = (.error (.invalidRequest msg), db)) ∧
    create dbC4 dtoC4 none =
      (.error (.invalidRequest ("Not enough stock for " ++ "Gadget")), dbC4) := by
  refine ⟨createLockLog_nodup, create_dup_overflow, ?_⟩
  norm_num [create, createBody, processLines, cacheGet, findProduct, findBy,
    saveProduct, saveOrder, upsert, List.find?, dbC4, dtoC4]

theorem dedup_in_transaction_check_witness :
    findProduct dbC4.products 10 = some pC4 ∧ pC4.isAvailable = true ∧
    Product.stock pC4 < requestQty dtoC4.items 10 ∧
    ∃ msg, create dbC4 dtoC4 none = (Except.error (Err.invalidRequest msg), dbC4) := by
  have h1 : findProduct dbC4.products 10 = some pC4 := by
    norm_num [findProduct, findBy, List.find?, dbC4, pC4]
  refine ⟨h1, rfl, by decide, ?_⟩
  exact dedup_in_transaction_check.2.1 dbC4 dtoC4 none 10 pC4
    (by decide) (by decide) h1 rfl (by decide) (by decide)

/-- C5: cancelling a PENDING order restocks every item's product by its
quantity (summed per product over the order's items), transitions the
order to CANCELLED, and a cancel of a non-PENDING order — in particular a
second cancel of the same order — fails with a BadRequestException and
changes nothing (no double restock). -/
theorem cancel_contract (db : DB) (oid : Nat) (ord : Order)
    (hwf : (db.products.map Product.id).Nodup)
    (ho : findOrder db.orders oid = some ord) :
    (ord.status = OrderStatus.pending →
      cancel db oid none =
        (.ok { ord with status := .cancelled },
         { db with products := restock (itemsOf db.orderItems oid) db.products,
                   orders := saveOrder db.orders { ord with status := .cancelled } }) ∧
      (∀ pid p, findProduct db.products pid = some p →
        pid ∈ (itemsOf db.orderItems oid).map OrderItem.productId →
        findProduct (cancel db oid none).2.products pid =
          some { p with stock := p.stock + itemsQty (itemsOf db.orderItems oid) pid,
                        isAvailable := true }) ∧
      (∀ inj2, cancel (cancel db oid none).2 oid inj2 =
        (.error (.invalidRequest "Only pending orders can be cancelled"),
         (cancel db oid none).2))) ∧
    (ord.status ≠ OrderStatus.pending → ∀ inj,
      cancel db oid inj =
        (.error (.invalidRequest "Only pending orders can be cancelled"), db)) := by
  constructor
  · intro hp
    have hrun := cancel_eq_of_body_ok (cancelBody_pending db oid ord ho hp)
    refine ⟨hrun, ?_, ?_⟩
    · intro pid p hfind hmem
      rw [hrun]
      show findProduct (restock (itemsOf db.orderItems oid) db.products) pid = _
      rw [findProduct_restock (itemsOf db.orderItems oid) db.products hwf pid, hfind]
      simp only [Option.map_some']
      rw [if_pos hmem]
    · intro inj2
      have hoid : Order.id ord = oid := (findBy_eq_some Order.id ho).1
      have hpost : findOrder (cancel db oid none).2.orders oid =
          some { ord with status := OrderStatus.cancelled } := by
        rw [hrun]
        show findOrder (saveOrder db.orders { ord with status := .cancelled }) oid = _
        have hself := findBy_upsert_self Order.id db.orders
          { ord with status := OrderStatus.cancelled }
        rw [← hoid]
        exact hself
      exact cancel_eq_of_body_err_http
        (cancelBody_notPending _ oid _ inj2 hpost (by simp)) rfl
  · intro hnp inj
    exact cancel_eq_of_body_err_http (cancelBody_notPending db oid ord inj ho hnp) rfl

def ordC5 : Order := { id := 1, userId := 1, status := OrderStatus.pending, total := 17 }

def dbC5 : DB :=
  { users := [1],
    products := [{ id := 10, name := "Gadget", price := 5, stock := 3, isAvailable := true },
                 { id := 20, name := "Widget", price := 7, stock := 0, isAvailable := false }],
    orders := [ordC5],
    orderItems := [{ orderId := 1, productId := 10, quantity := 1, price := 5 },
                   { orderId := 1, productId := 20, quantity := 2, price := 7 }],
    nextOrderId := 2 }

def pC5 : Product := { id := 10, name := "Gadget", price := 5, stock := 3, isAvailable := true }

theorem cancel_contract_witness :
    ordC5.status = OrderStatus.pending ∧
    (cancel dbC5 1 none).1 =
      Except.ok { id := 1, userId := 1, status := OrderStatus.cancelled, total := 17 } ∧
    findProduct (cancel dbC5 1 none).2.products 10 =
      some { id := 10, name := "Gadget", price := 5, stock := 4, isAvailable := true } ∧
    (cancel (cancel dbC5 1 none).2 1 none).1 =
      Except.error (Err.invalidRequest "Only pending orders can be cancelled") := by
  have ho : findOrder dbC5.orders 1 = some ordC5 := by
    norm_num [findOrder, findBy, List.find?, dbC5, ordC5]
  have h := cancel_contract dbC5 1 ordC5 (by decide) ho
  have hp := h.1 rfl
  refine ⟨rfl, by simp [hp.1, ordC5], ?_, by simp [hp.2.2 none]⟩
  have hfind10 : findProduct dbC5.products 10 = some pC5 := by
    norm_num [findProduct, findBy, List.find?, dbC5, pC5]
  have h10 := hp.2.1 10 pC5 hfind10 (by decide)
  rw [h10]
  norm_num [itemsQty, itemsOf, dbC5, pC5]

/-- C10: when a PENDING order references the same product in several item
rows, cancellation restores that product's stock by the sum of all those
rows' quantities — each loop iteration re-reads the current in-transaction
value before incrementing, with no per-product deduplication. -/
theorem cancel_restock_sums_duplicates (db : DB) (oid : Nat) (ord : Order)
    (hwf : (db.products.map Product.id).Nodup)
    (ho : findOrder db.orders oid = some ord) (hp : ord.status = OrderStatus.pending)
    (pid : Nat) (p : Product) (hfind : findProduct db.products pid = some p)
    (hmem : pid ∈ (itemsOf db.orderItems oid).map OrderItem.productId) :
    findProduct (cancel db oid none).2.products pid =
      some { p with stock := p.stock + itemsQty (itemsOf db.orderItems oid) pid,
                    isAvailable := true } := by
  have hrun := cancel_eq_of_body_ok (cancelBody_pending db oid ord ho hp)
  rw [hrun]
  show findProduct (restock (itemsOf db.orderItems oid) db.products) pid = _
  rw [findProduct_restock (itemsOf db.orderItems oid) db.products hwf pid, hfind]
  simp only [Option.map_some']
  rw [if_pos hmem]

def ordC10 : Order := { id := 1, userId := 1, status := OrderStatus.pending, total := 25 }

def dbC10 : DB :=
  { users := [1],
    products := [{ id := 10, name := "Gadget", price := 5, stock := 0, isAvailable := false }],
    orders := [ordC10],
    orderItems := [{ orderId := 1, productId := 10, quantity := 2, price := 5 },
                   { orderId := 1, productId := 10, quantity := 3, price := 5 }],
    nextOrderId := 2 }

def pC10 : Product := { id := 10, name := "Gadget", price := 5, stock := 0, isAvailable := false }

theorem cancel_restock_sums_duplicates_witness :
    findProduct (cancel dbC10 1 none).2.products 10 =
      some { id := 10, name := "Gadget", price := 5, stock := 5, isAvailable := true } := by
  have ho : findOrder dbC10.orders 1 = some ordC10 := by
    norm_num [findOrder, findBy, List.find?, dbC10, ordC10]
  have hfind : findProduct dbC10.products 10 = some pC10 := by
    norm_num [findProduct, findBy, List.find?, dbC10, pC10]
  have h := cancel_restock_sums_duplicates dbC10 1 ordC10 (by decide) ho rfl 10 pC10
    hfind (by decide)
  rw [h]
  norm_num [itemsQty, itemsOf, dbC10, pC10]

def dbC6 : DB :=
  { users := [1],
    products := [{ id := 10, name := "Gadget", price := 5, stock := 5, isAvailable := true }],
    orders := [], orderItems := [], nextOrderId := 1 }

def dtoC6 : CreateOrderDto := { userId := 1, items := [{ productId := 10, quantity := 1 }] }

/-- C6 counterexample: a lower-level (non-`HttpException`) fault injected
during order creation is re-raised unchanged by `create` (lines 119-121
rethrow `e` as-is) — it is not translated to the opaque
InternalServerErrorException, contradicting the claim that the
InternalFailure translation applies to order creation as well as
cancellation. -/
theorem create_fault_not_translated :
    create dbC6 dtoC6 (some "disk failure") =
      (Except.error (Err.lowLevel "disk failure"), dbC6) ∧
    Err.isInternalFailure (Err.lowLevel "disk failure") = false ∧
    Err.isHttp (Err.lowLevel "disk failure") = false := by
  refine ⟨?_, rfl, rfl⟩
  norm_num [create, createBody, processLines, cacheGet, findProduct, findBy,
    saveProduct, upsert, List.find?, dbC6, dtoC6]

/-- C6 amended: domain errors raised inside a transaction are rolled back
and re-raised unchanged by both operations, and non-domain faults are
rolled back in both; but the translation to the opaque InternalFailure
applies only to cancellation — order creation re-raises even non-domain
faults unchanged. -/
theorem error_propagation (db : DB) :
    (∀ (dto : CreateOrderDto) (inj : Option String) (e : Err) (dirty : DB)
      (lg : List Nat),
      createBody db dto inj = (.error e, dirty, lg) →
      create db dto inj = (.error e, db)) ∧
    (∀ (oid : Nat) (inj : Option String) (e : Err) (dirty : DB),
      cancelBody db oid inj = (.error e, dirty) → e.isHttp = true →
      cancel db oid inj = (.error e, db)) ∧
    (∀ (oid : Nat) (inj : Option String) (e : Err) (dirty : DB),
      cancelBody db oid inj = (.error e, dirty) → e.isHttp = false →
      cancel db oid inj = (.error (.internalFailure "Failed to cancel order"), db)) :=
  ⟨fun _ _ _ _ _ h => create_eq_of_body_err h,
   fun _ _ _ _ h he => cancel_eq_of_body_err_http h he,
   fun _ _ _ _ h he => cancel_eq_of_body_err_low h he⟩

def ordC6 : Order := { id := 1, userId := 1, status := OrderStatus.pending, total := 0 }

def dbC6b : DB :=
  { users := [1], products := [], orders := [ordC6], orderItems := [], nextOrderId := 2 }

theorem error_propagation_witness :
    create dbC6 { userId := 2, items := [] } none =
      (Except.error (Err.notFound ("User #" ++ toString (2 : Nat) ++ " not found")), dbC6) ∧
    cancel dbC6 7 none =
      (Except.error (Err.notFound ("Order #" ++ toString (7 : Nat) ++ " not found")), dbC6) ∧
    cancel dbC6b 1 (some "io error") =
      (Except.error (Err.internalFailure "Failed to cancel order"), dbC6b) := by
  refine ⟨?_, ?_, ?_⟩
  · exact (error_propagation dbC6).1 { userId := 2, items := [] } none _ dbC6 []
      (by simp [createBody, dbC6])
  · exact (error_propagation dbC6).2.1 7 none _ dbC6
      (cancelBody_notFound dbC6 7 none (by simp [findOrder, findBy, List.find?, dbC6])) rfl
  · exact (error_propagation dbC6b).2.2 1 (some "io error") _ _
      (cancelBody_inj dbC6b 1 ordC6 "io error"
        (by norm_num [findOrder, findBy, List.find?, dbC6b, ordC6]) rfl) rfl

def dbC7 : DB :=
  { users := [1, 2],
    products := [{ id := 10, name := "Gadget", price := 999/100, stock := 1,
                   isAvailable := true }],
    orders := [], orderItems := [], nextOrderId := 1 }

def dtoC7a : CreateOrderDto := { userId := 1, items := [{ productId := 10, quantity := 1 }] }

def dtoC7b : CreateOrderDto := { userId := 2, items := [{ productId := 10, quantity := 1 }] }

def postC7a : DB :=
  { users := [1, 2],
    products := [{ id := 10, name := "Gadget", price := 999/100, stock := 0,
                   isAvailable := false }],
    orders := [{ id := 1, userId := 1, status := OrderStatus.pending, total := 999/100 }],
    orderItems := [{ orderId := 1, productId := 10, quantity := 1, price := 999/100 }],
    nextOrderId := 2 }

def postC7b : DB :=
  { users := [1, 2],
    products := [{ id := 10, name := "Gadget", price := 999/100, stock := 0,
                   isAvailable := false }],
    orders := [{ id := 1, userId := 2, status := OrderStatus.pending, total := 999/100 }],
    orderItems := [{ orderId := 1, productId := 10, quantity := 1, price := 999/100 }],
    nextOrderId := 2 }

/-- C7: the row-locked transactions of two competing single-unit requests
against a product with stock 1 serialize; in either serialization order
the first-committed request succeeds, the other fails with a
BadRequestException (the product, with stock drained to 0, fails the
availability check), nothing is committed by the failed request, and the
final stock is 0 — never oversold. -/
theorem concurrent_no_oversell :
    (create dbC7 dtoC7a none =
      (Except.ok { id := 1, userId := 1, status := OrderStatus.pending, total := 999/100 },
       postC7a) ∧
     create postC7a dtoC7b none =
      (Except.error (Err.invalidRequest ("Product " ++ "Gadget" ++ " is not available")),
       postC7a) ∧
     findProduct postC7a.products 10 =
      some { id := 10, name := "Gadget", price := 999/100, stock := 0,
             isAvailable := false }) ∧
    (create dbC7 dtoC7b none =
      (Except.ok { id := 1, userId := 2, status := OrderStatus.pending, total := 999/100 },
       postC7b) ∧
     create postC7b dtoC7a none =
      (Except.error (Err.invalidRequest ("Product " ++ "Gadget" ++ " is not available")),
       postC7b) ∧
     findProduct postC7b.products 10 =
      some { id := 10, name := "Gadget", price := 999/100, stock := 0,
             isAvailable := false }) := by
  refine ⟨⟨?_, ?_, ?_⟩, ⟨?_, ?_, ?_⟩⟩ <;>
    norm_num [create, createBody, processLines, cacheGet, findProduct, findBy,
      saveProduct, saveOrder, upsert, List.find?, dbC7, dtoC7a, dtoC7b, postC7a, postC7b]

/-- C8: a CANCELLED target delegates the whole call to the cancellation
operation; otherwise an absent order fails with NotFound, a CANCELLED
current status fails with a BadRequestException, and any other current
status is overwritten with the requested value and persisted with no
product or order-item change. -/
theorem updateStatus_contract (db : DB) (oid : Nat) (st : OrderStatus)
    (inj : Option String) :
    (st = OrderStatus.cancelled → updateStatus db oid st inj = cancel db oid inj) ∧
    (st ≠ OrderStatus.cancelled →
      (findOrder db.orders oid = none →
        updateStatus db oid st inj =
          (.error (.notFound ("Order #" ++ toString oid ++ " not found")), db)) ∧
      (∀ ord, findOrder db.orders oid = some ord →
        (ord.status = OrderStatus.cancelled →
          updateStatus db oid st inj =
            (.error (.invalidRequest "Cannot update a cancelled order"), db)) ∧
        (ord.status ≠ OrderStatus.cancelled →
          updateStatus db oid st inj =
            (.ok { ord with status := st },
             { db with orders := saveOrder db.orders { ord with status := st } }) ∧
          (updateStatus db oid st inj).2.products = db.products ∧
          (updateStatus db oid st inj).2.orderItems = db.orderItems))) := by
  refine ⟨?_, ?_⟩
  · intro hst
    rw [hst]
    exact updateStatus_cancelled db oid inj
  · intro hst
    refine ⟨fun ho => updateStatus_notFound db oid st inj hst ho, ?_⟩
    intro ord ho
    refine ⟨fun hc => updateStatus_terminal db oid st inj ord hst ho hc, ?_⟩
    intro hc
    have hrun := updateStatus_ok db oid st inj ord hst ho hc
    exact ⟨hrun, by rw [hrun], by rw [hrun]⟩

def ordC8 : Order := { id := 1, userId := 1, status := OrderStatus.pending, total := 0 }

def dbC8 : DB :=
  { users := [1], products := [], orders := [ordC8], orderItems := [], nextOrderId := 2 }

theorem updateStatus_contract_witness :
    updateStatus dbC8 1 OrderStatus.cancelled none = cancel dbC8 1 none ∧
    (updateStatus dbC8 1 (OrderStatus.other 0) none).1 =
      Except.ok { id := 1, userId := 1, status := OrderStatus.other 0, total := 0 } ∧
    (updateStatus dbC8 1 (OrderStatus.other 0) none).2.products = dbC8.products := by
  have ho : findOrder dbC8.orders 1 = some ordC8 := by
    norm_num [findOrder, findBy, List.find?, dbC8, ordC8]
  have hok := ((updateStatus_contract dbC8 1 (OrderStatus.other 0) none).2
    (by decide)).2 ordC8 ho
  have hrun := hok.2 (by decide)
  exact ⟨(updateStatus_contract dbC8 1 OrderStatus.cancelled none).1 rfl,
    by simp [hrun.1, ordC8], hrun.2.1⟩

/-- A single-line create call that passes the user, existence,
availability and stock checks, spelled out. -/
theorem create_single_line (db : DB) (uid pid : Nat) (q : Int) (p : Product)
    (hus : uid ∈ db.users) (hfind : findProduct db.products pid = some p)
    (hav : p.isAvailable = true) (hstock : ¬ p.stock < q) :
    create db { userId := uid, items := [{ productId := pid, quantity := q }] } none =
      (Except.ok { id := db.nextOrderId, userId := uid, status := OrderStatus.pending,
                   total := p.price * (q : Rat) },
       { db with
         orders := saveOrder
           (saveOrder db.orders { id := db.nextOrderId, userId := uid,
                                  status := OrderStatus.pending, total := 0 })
           { id := db.nextOrderId, userId := uid, status := OrderStatus.pending,
             total := p.price * (q : Rat) },
         orderItems := db.orderItems ++
           [{ orderId := db.nextOrderId, productId := p.id, quantity := q,
              price := p.price }],
         products := saveProduct db.products
           { p with stock := p.stock - q,
                    isAvailable := decide (p.stock - q > 0) },
         nextOrderId := db.nextOrderId + 1 }) := by
  simp [create, createBody, processLines, cacheGet, findBy, List.find?,
    saveProduct, upsert, List.foldl_cons, List.foldl_nil, hus, hfind, hav, hstock]

/-- C9: the engine itself performs no validation that quantities are
positive (that lives in the DTO layer): a line with quantity 0 for an
existing, available product succeeds, creates an item row with quantity 0,
contributes 0 to the total and leaves the stock unchanged; a negative
quantity likewise passes the stock check and increases the stock. -/
theorem no_quantity_validation (db : DB) (uid pid : Nat) (p : Product)
    (hus : uid ∈ db.users) (hfind : findProduct db.products pid = some p)
    (hav : p.isAvailable = true) (hnn : 0 ≤ p.stock) :
    (∃ o db', create db { userId := uid, items := [{ productId := pid, quantity := 0 }] }
        none = (Except.ok o, db') ∧
      o.total = 0 ∧
      db'.orderItems = db.orderItems ++
        [{ orderId := db.nextOrderId, productId := p.id, quantity := 0,
           price := p.price }] ∧
      ∃ p', findProduct db'.products pid = some p' ∧ p'.stock = p.stock) ∧
    (∀ k : Int, k < 0 →
      ∃ o db', create db { userId := uid, items := [{ productId := pid, quantity := k }] }
          none = (Except.ok o, db') ∧
        ∃ p', findProduct db'.products pid = some p' ∧ p'.stock = p.stock - k ∧
          p.stock < p'.stock) := by
  have hid : p.id = pid := (findBy_eq_some Product.id hfind).1
  constructor
  · have hrun := create_single_line db uid pid 0 p hus hfind hav (by omega)
    refine ⟨_, _, hrun, ?_, rfl, ?_⟩
    · show p.price * ((0 : Int) : Rat) = 0
      norm_num
    · refine ⟨{ p with stock := p.stock - 0, isAvailable := decide (p.stock - 0 > 0) },
        ?_, by show p.stock - 0 = p.stock; omega⟩
      show findProduct (saveProduct db.products _) pid = _
      rw [← hid]
      exact findBy_upsert_self Product.id db.products _
  · intro k hk
    have hrun := create_single_line db uid pid k p hus hfind hav (by omega)
    refine ⟨_, _, hrun, ?_⟩
    refine ⟨{ p with stock := p.stock - k, isAvailable := decide (p.stock - k > 0) },
      ?_, rfl, by show p.stock < p.stock - k; omega⟩
    show findProduct (saveProduct db.products _) pid = _
    rw [← hid]
    exact findBy_upsert_self Product.id db.products _

def dbC9 : DB :=
  { users := [1],
    products := [{ id := 10, name := "Gadget", price := 5, stock := 4, isAvailable := true }],
    orders := [], orderItems := [], nextOrderId := 1 }

def pC9 : Product := { id := 10, name := "Gadget", price := 5, stock := 4, isAvailable := true }

theorem no_quantity_validation_witness :
    ∃ o db', create dbC9 { userId := 1, items := [{ productId := 10, quantity := 0 }] }
        none = (Except.ok o, db') ∧
      o.total = 0 ∧
      db'.orderItems = dbC9.orderItems ++
        [{ orderId := dbC9.nextOrderId, productId := pC9.id, quantity := 0,
           price := pC9.price }] ∧
      ∃ p', findProduct db'.products 10 = some p' ∧ p'.stock = pC9.stock := by
  have hfind : findProduct dbC9.products 10 = some pC9 := by
    norm_num [findProduct, findBy, List.find?, dbC9, pC9]
  exact (no_quantity_validation dbC9 1 10 pC9 (by decide) hfind rfl (by decide)).1

end Orders
